import Mathlib

/-!
Shallow embedding of the order reconciliation engine of
`src/frontend/uber-eats-lite-frontend/src/pages/Orders.tsx` (first revision,
lines 1-515): `upsertOrderPure` with its helpers (`hasValue`, `safeNumber`,
`statusRank`, `pickStatus`, `mergeItems`, `computeAssigning`),
`normalizeEventType`, `pushDedupToast`, and the `ws.onmessage` handler.

Modelling conventions, chosen so that every JS construct the code actually
uses is represented exactly:
* A JS number is `JSNum`: either a finite rational or the single
  non-finite state (NaN and the infinities are interchangeable for this
  code, which only ever tests `Number.isFinite`).
* A field of a stored `Order` object is `Option α`: `none` is a nullish
  value (`undefined`/`null`).  No operation applied to stored records in
  this file's code path distinguishes `undefined` from `null` (only
  `?? `, truthiness, `hasValue`, `Array.isArray` and `===` against
  string/number literals are used), so the two are collapsed.
* A field of the incoming `Partial<Order>` is `Option (Option α)`:
  the outer `none` means the property is absent from the object, `some
  none` means it is present with a nullish value, `some (some v)` a real
  value.  The distinction matters because the trailing `...incoming`
  spread in `upsertOrderPure` copies present properties (nullish ones
  included) over the carefully picked fields, but skips absent ones.
* A field of a raw socket payload is `JF α` with three states
  (`undef`/`null`/`val`), because `payload.items === undefined` in the
  handler distinguishes `undefined` from `null`.
* `toLowerCase` is modelled on the ASCII letters (the only case-carrying
  data on this code path).
-/

/-- A JS number: claims only depend on finite vs non-finite (NaN/Infinity). -/
inductive JSNum where
  | fin (q : ℚ)
  | nonfin
deriving DecidableEq, Repr

/-- `Number.isFinite`. -/
def JSNum.isFinite : JSNum → Bool
  | .fin _ => true
  | .nonfin => false

/-- A raw-payload field: JS `undefined`, `null`, or a value. -/
inductive JF (α : Type) where
  | undef
  | null
  | val (a : α)
deriving DecidableEq, Repr

/-- Reading a `JF` field where `undefined` and `null` behave alike
(`?? `, truthiness): collapse both to `none`. -/
def JF.toOpt : JF α → Option α
  | .val a => some a
  | _ => none

/-- JS `x === undefined` on a payload field. -/
def JF.isUndef : JF α → Bool
  | .undef => true
  | _ => false

/-- JS `a ?? b` on two raw fields, preserving a `null` result. -/
def jfCoal : JF α → JF α → JF α
  | .val a, _ => .val a
  | _, b => b

/-- JS `payload.f ?? x` where `x` is already an `Option`. -/
def jfOr (a : JF α) (b : Option α) : Option α :=
  match a with
  | .val v => some v
  | _ => b

/-- A stored order record (the `Order` interface of `components/types.ts`;
nullish field values are `none`). -/
structure Order where
  id : String
  user_id : Option String := none
  user_name : Option String := none
  items : Option (List String) := none
  total : Option JSNum := none
  status : Option String := none
  driver_id : Option String := none
  driver_name : Option String := none
  payment_status : Option String := none
  assigning : Option Bool := none
deriving DecidableEq, Repr

/-- An incoming `Partial<Order> & { id: string }`.  For each field, outer
`none` = property absent, `some none` = property present but nullish,
`some (some v)` = value. -/
structure POrder where
  id : String
  user_id : Option (Option String) := none
  user_name : Option (Option String) := none
  items : Option (Option (List String)) := none
  total : Option (Option JSNum) := none
  status : Option (Option String) := none
  driver_id : Option (Option String) := none
  driver_name : Option (Option String) := none
  payment_status : Option (Option String) := none
  assigning : Option (Option Bool) := none
deriving DecidableEq, Repr

/-- `hasValue` from `upsertOrderPure`: `typeof v !== "undefined" && v !== null`,
applied to a property of the incoming partial. -/
def hasValue (v : Option (Option α)) : Bool :=
  match v with
  | some (some _) => true
  | _ => false

/-- JS `incoming.f ?? existing.f` (incoming partial field, stored field). -/
def pCoal (i : Option (Option α)) (e : Option α) : Option α :=
  match i.join with
  | some v => some v
  | none => e

/-- `safeNumber` from `upsertOrderPure`.  Its argument is already a JS
number or nullish here (`Number(v)` on a number is the identity). -/
def safeNumber (v : Option JSNum) (fallback : JSNum) : JSNum :=
  match v with
  | none => fallback
  | some n => if n.isFinite then n else fallback

/-- The `statusRank` record (`?? 0` for any other key). -/
def statusRank (s : String) : Nat :=
  if s = "delivered" then 5
  else if s = "assigned" then 4
  else if s = "paid" then 3
  else if s = "pending" then 1
  else 0

/-- ASCII lowering of one character, the case `String.prototype.toLowerCase`
performs on the data this code handles. -/
def lowerChar (c : Char) : Char :=
  if 65 ≤ c.toNat ∧ c.toNat ≤ 90 then Char.ofNat (c.toNat + 32) else c

/-- JS `toLowerCase` (ASCII model). -/
def jsLower (s : String) : String := ⟨s.data.map lowerChar⟩

/-- `pickStatus` from `upsertOrderPure`.  The rank comparison happens on the
lowercased strings (`(x || "unknown").toLowerCase()`), but the value
returned keeps its original case; the result is always a real string. -/
def pickStatus (existingStatus incomingStatus : Option String) : String :=
  match incomingStatus with
  | none => existingStatus.getD "pending"
  | some inc =>
    match existingStatus with
    | none => inc
    | some ex =>
      let incRank := statusRank (jsLower (if inc = "" then "unknown" else inc))
      let exRank := statusRank (jsLower (if ex = "" then "unknown" else ex))
      if incRank < exRank then ex else inc

/-- `mergeItems` from `upsertOrderPure`.  Branches two and three of the
source (`existingItems ?? []` and `Array.isArray(existingItems) ?
existingItems : []`) coincide in this model, where a stored items field is
either nullish or an array. -/
def mergeItems (existingItems : Option (List String))
    (incomingItems : Option (Option (List String))) : List String :=
  match incomingItems with
  | some (some l) => if l.length > 0 then l else existingItems.getD []
  | _ => existingItems.getD []

/-- JS truthiness of a string-or-nullish value (`""` is falsy). -/
def jsTruthyStr : Option String → Bool
  | some s => s ≠ ""
  | none => false

/-- `computeAssigning` from `upsertOrderPure`: works on
`incoming.f ?? existing.f` picks, not on the merged record. -/
def computeAssigning (existingVal : Option Order) (incomingVal : POrder) : Bool :=
  let status := pCoal incomingVal.status (existingVal.bind (·.status))
  let payment := pCoal incomingVal.payment_status (existingVal.bind (·.payment_status))
  let driver_id := pCoal incomingVal.driver_id (existingVal.bind (·.driver_id))
  if jsTruthyStr driver_id then false
  else if status = some "paid" ∨ payment = some "paid" then true
  else false

/-- The trailing `...incoming` spread applied to one field: a property
present on the incoming object (nullish or not) overwrites the picked
value; an absent property leaves it. -/
def spreadF (picked : Option α) (incF : Option (Option α)) : Option α :=
  match incF with
  | none => picked
  | some v => v

/-- `hasValue(incoming.f) ? incoming.f : existing.f` (the pick used for
`user_id`, `user_name`, `driver_id`, `driver_name`). -/
def pickPresent (incF : Option (Option α)) (exF : Option α) : Option α :=
  if hasValue incF then incF.join else exF

/-- `incoming.user_id === currentUserId`.  The corner case where both sides
are literally `null` (JS `null === null` is `true`) is not representable in
the collapsed nullish model and is read as the `undefined` case (`false`);
no other behaviour depends on it. -/
def jsEqIdCur (incId : Option (Option String)) (cur : Option String) : Bool :=
  match incId.join, cur with
  | some a, some b => a = b
  | _, _ => false

/-- The merged record built by `upsertOrderPure` for one incoming event:
the two object literals (existing-entry branch and new-entry branch), each
ending in the `...incoming` spread. -/
def mergeOrder (currentUserId : Option String) (existing : Option Order)
    (incoming : POrder) : Order :=
  match existing with
  | some ex =>
    { id := incoming.id
      user_id := spreadF (pickPresent incoming.user_id ex.user_id) incoming.user_id
      user_name := spreadF (pickPresent incoming.user_name ex.user_name) incoming.user_name
      items := spreadF (some (mergeItems ex.items incoming.items)) incoming.items
      total := spreadF (some (safeNumber (pCoal incoming.total ex.total)
        (ex.total.getD (.fin 0)))) incoming.total
      status := spreadF (some (pickStatus ex.status incoming.status.join)) incoming.status
      driver_id := spreadF (pickPresent incoming.driver_id ex.driver_id) incoming.driver_id
      driver_name := spreadF (pickPresent incoming.driver_name ex.driver_name) incoming.driver_name
      payment_status := spreadF
        (if hasValue incoming.payment_status then incoming.payment_status.join
         else some (ex.payment_status.getD "pending")) incoming.payment_status
      assigning := spreadF (some (computeAssigning (some ex) incoming)) incoming.assigning }
  | none =>
    { id := incoming.id
      user_id := spreadF (some (incoming.user_id.join.getD "unknown")) incoming.user_id
      user_name := spreadF (some
        (if jsEqIdCur incoming.user_id currentUserId then "You"
         else ((incoming.user_name.join).orElse (fun _ => incoming.user_id.join)).getD
           "unknown")) incoming.user_name
      items := spreadF (some ((incoming.items.join).getD [])) incoming.items
      total := spreadF (some (safeNumber incoming.total.join (.fin 0))) incoming.total
      status := spreadF (some ((incoming.status.join).getD "pending")) incoming.status
      driver_id := spreadF incoming.driver_id.join incoming.driver_id
      driver_name := spreadF incoming.driver_name.join incoming.driver_name
      payment_status := spreadF (some ((incoming.payment_status.join).getD "pending"))
        incoming.payment_status
      assigning := spreadF (some (computeAssigning none incoming)) incoming.assigning }

/-- The value a JS `Map` built from `prev.map(p => [p.id, {...p}])` holds for
key `i`: the copy of the LAST element of `prev` with that id. -/
def lastFind (l : List Order) (i : String) : Option Order :=
  l.reverse.find? (fun o => o.id = i)

/-- The list-rebuilding tail of `upsertOrderPure`: `newOnes` is `[merged]`
exactly when the id is new (the map's keys are `prev`'s ids plus the merged
id); `orderedExisting` maps every previous position to the map's final value
for that id (`merged` for the merged id, else the last-duplicate copy);
`filter(Boolean)` never drops anything because every looked-up id is a key. -/
def upsertList (prev : List Order) (merged : Order) : List Order :=
  let orderedExisting := prev.map (fun p =>
    if p.id = merged.id then merged else (lastFind prev p.id).getD p)
  if prev.all (fun p => p.id ≠ merged.id) then merged :: orderedExisting
  else orderedExisting

/-- `upsertOrderPure(prev, incoming)` from `Orders.tsx` (first revision,
lines 114-223).  `existing = map.get(id)` is the last-duplicate copy. -/
def upsertOrderPure (currentUserId : Option String) (prev : List Order)
    (incoming : POrder) : List Order :=
  upsertList prev (mergeOrder currentUserId (lastFind prev incoming.id) incoming)

example :
    upsertOrderPure none [] { id := "O1", status := some (some "paid"), total := some (some (.fin 11)) } =
      [{ id := "O1", user_id := some "unknown", user_name := some "unknown",
         items := some [], total := some (.fin 11), status := some "paid",
         driver_id := none, driver_name := none, payment_status := some "pending",
         assigning := some true }] := by decide

/-- `needle` starts the list `hay`. -/
def startsWithL : List Char → List Char → Bool
  | [], _ => true
  | _ :: _, [] => false
  | a :: as, b :: bs => a = b && startsWithL as bs

/-- `needle` occurs somewhere in `hay`. -/
def inclChars (needle : List Char) : List Char → Bool
  | [] => startsWithL needle []
  | h :: t => startsWithL needle (h :: t) || inclChars needle t

/-- JS `hay.includes(needle)`. -/
def strIncludes (hay needle : String) : Bool := inclChars needle.data hay.data

/-- `normalizeEventType` without the falsiness guard, applied to the
already-lowercased string (`normCore (jsLower raw)`). -/
def normCore (s : String) : String :=
  if strIncludes s "order.created" || strIncludes s "order_create" then "order.created"
  else if strIncludes s "order.updated" || strIncludes s "order_update" then "order.updated"
  else if strIncludes s "payment.completed" || strIncludes s "payment_complete" ||
    strIncludes s "paymentcompleted" then "payment.completed"
  else if strIncludes s "driver.assigned" || strIncludes s "driver_assigned" then "driver.assigned"
  else if strIncludes s "driver.pending" then "driver.pending"
  else if strIncludes s "driver.failed" then "driver.failed"
  else if strIncludes s "delivery.completed" || strIncludes s "delivery_complete" ||
    strIncludes s "order.delivered" then "delivery.completed"
  else if strIncludes s "order.deleted" || strIncludes s "order_deleted" then "order.deleted"
  else s

/-- `normalizeEventType(raw)` from `Orders.tsx` (first revision, lines
227-241).  The caller coalesces the alias fields first; a nullish `raw` is
handled there (`JF.toOpt --.getD ""`), so here the only falsy string input
is `""`. -/
def normalizeEventType (raw : String) : String :=
  if raw = "" then "" else normCore (jsLower raw)

/-- `sessionStorage.getItem(key)` followed by `Number(...)`: the dedup
store holds epoch milliseconds.  A present entry is always truthy in the
source (a stored `"0"` is a non-empty string). -/
def sessionGet (store : List (String × Int)) (key : String) : Option Int :=
  (store.find? (fun p => p.1 = key)).map (·.2)

/-- `pushDedupToast(key, fn, ttlMs)` from `Orders.tsx` (first revision,
lines 243-251): `if (existing && now - Number(existing) < ttlMs) return;`
then `setItem` (which replaces the entry for the key) and `fn()`.  Returns
whether `fn` fired, plus the updated `sessionStorage`. -/
def pushDedupToast (key : String) (now : Int) (ttlMs : Int)
    (store : List (String × Int)) : Bool × List (String × Int) :=
  if (sessionGet store key).elim false (fun t => now - t < ttlMs) then (false, store)
  else (true, (key, now) :: store.filter (fun p => p.1 ≠ key))

/-- The business fields of a raw socket frame (either `raw.data`,
`raw.payload`, or the frame itself).  `ptype` is the `type` property read
by `raw.data?.type`. -/
structure Payload where
  ptype : JF String := .undef
  order_id : JF String := .undef
  pid : JF String := .undef
  user_id : JF String := .undef
  user_name : JF String := .undef
  items : JF (List String) := .undef
  total : JF JSNum := .undef
  total_amount : JF JSNum := .undef
  status : JF String := .undef
  payment_status : JF String := .undef
  driver_id : JF String := .undef
  driver_name : JF String := .undef
deriving DecidableEq, Repr

/-- A parsed socket frame (`raw` after `JSON.parse`): the three alias kind
fields, the two possible payload carriers, and the frame's own business
fields (used when both carriers are nullish). -/
structure Msg where
  mtype : JF String := .undef
  event : JF String := .undef
  event_type : JF String := .undef
  data : JF Payload := .undef
  payloadF : JF Payload := .undef
  self : Payload := {}
deriving DecidableEq, Repr

/-- `raw.type ?? raw.event ?? raw.event_type ?? raw.data?.type`, as a
string for `normalizeEventType` (nullish coalesces to the falsy `""`). -/
def kindOf (msg : Msg) : String :=
  (jfCoal msg.mtype (jfCoal msg.event (jfCoal msg.event_type
    (match msg.data with | .val p => p.ptype | _ => .undef)))).toOpt.getD ""

/-- `raw.data ?? raw.payload ?? raw`. -/
def payloadOf (msg : Msg) : Payload :=
  match msg.data with
  | .val p => p
  | _ => match msg.payloadF with
    | .val p => p
    | _ => msg.self

/-- `payload.order_id ?? payload.id`, with the `if (!orderId) return`
falsiness guard folded in (`none` = the handler bails out). -/
def oidOf (msg : Msg) : Option String :=
  match (jfCoal (payloadOf msg).order_id (payloadOf msg).pid).toOpt with
  | some s => if s = "" then none else some s
  | none => none

/-- `Number(payload.total ?? payload.total_amount)`: `Number(null) = 0`,
`Number(undefined) = NaN`.  The source continues `?? fullOrder?.total ?? 0`,
but a JS number is never nullish, so that tail never fires. -/
def jsNumberOfJF : JF JSNum → JSNum
  | .val n => n
  | .null => .fin 0
  | .undef => .nonfin

/-- The `unified` record the handler builds (step 5 of `ws.onmessage`),
given the resolved order id and the (possibly failed) point fetch. -/
def unifiedOf (oid : String) (payload : Payload) (fullOrder : Option Order) : POrder :=
  { id := oid
    user_id := some (jfOr payload.user_id (fullOrder.bind (·.user_id)))
    user_name := some (some ((jfOr payload.user_name
      (fullOrder.bind (·.user_name))).getD "Unknown"))
    items := some (some (match payload.items with
      | .val l => if l.length > 0 then l else (fullOrder.bind (·.items)).getD []
      | _ => (fullOrder.bind (·.items)).getD []))
    total := some (some (jsNumberOfJF (jfCoal payload.total payload.total_amount)))
    status := some (some ((jfOr payload.status (fullOrder.bind (·.status))).getD "pending"))
    payment_status := some (some ((jfOr payload.payment_status
      (fullOrder.bind (·.payment_status))).getD "pending"))
    driver_id := some (jfOr payload.driver_id (fullOrder.bind (·.driver_id)))
    driver_name := some (jfOr payload.driver_name (fullOrder.bind (·.driver_name)))
    assigning := none }

/-- The mutable state the handler touches: the orders list, the
`lastFetchMs` throttle map, and the `sessionStorage` dedup store. -/
structure HandlerState where
  orders : List Order := []
  lastFetch : List (String × Int) := []
  session : List (String × Int) := []
deriving DecidableEq, Repr

/-- `lastFetchMs.current.get(orderId) ?? 0`. -/
def lastFetchOf (st : HandlerState) (oid : String) : Int :=
  ((st.lastFetch.find? (fun p => p.1 = oid)).map (·.2)).getD 0

/-- `missingData && now - lastFetch > FETCH_THROTTLE_MS` (step 4). -/
def shouldFetch (now : Int) (st : HandlerState) (payload : Payload) (oid : String) : Bool :=
  (payload.items.isUndef || payload.status.isUndef) && (now - lastFetchOf st oid > 2000)

/-- The switch cases of step 7; every one pushes a dedup toast with the
same key and the default 6000 ms ttl, and `order.deleted` additionally
filters the order out of the already-upserted list. -/
def recognizedKinds : List String :=
  ["order.created", "payment.completed", "order.updated", "driver.assigned",
   "driver.pending", "driver.failed", "delivery.completed", "order.deleted"]

/-- `ws.onmessage` from `Orders.tsx` (first revision, lines 284-405), from
the point where the frame has been JSON-parsed.  `fetchResult` is the value
`fetchSingleOrder(orderId)` would resolve to (`none` = fetch failed); the
fetch is only consulted when `shouldFetch` holds, and attempting it records
the throttle timestamp whether or not it succeeds.  The returned list holds
the dedup keys of the toasts that actually fired (the toast text, which
varies per kind, is irrelevant to the claims). -/
def handleMessage (currentUserId : Option String) (now : Int)
    (fetchResult : Option Order) (st : HandlerState) (msg : Msg) :
    HandlerState × List String :=
  let eventType := normalizeEventType (kindOf msg)
  if eventType = "" then (st, [])
  else
    match oidOf msg with
    | none => (st, [])
    | some oid =>
      let payload := payloadOf msg
      let doFetch := shouldFetch now st payload oid
      let lastFetch' := if doFetch
        then (oid, now) :: st.lastFetch.filter (fun p => p.1 ≠ oid)
        else st.lastFetch
      let fullOrder := if doFetch then fetchResult else none
      let newOrders := upsertOrderPure currentUserId st.orders
        (unifiedOf oid payload fullOrder)
      if eventType ∈ recognizedKinds then
        let key := "WS:" ++ oid ++ ":" ++ eventType
        let push := pushDedupToast key now 6000 st.session
        let orders' := if eventType = "order.deleted"
          then newOrders.filter (fun o => o.id ≠ oid)
          else newOrders
        ({ orders := orders', lastFetch := lastFetch', session := push.2 },
         if push.1 then [key] else [])
      else
        ({ orders := newOrders, lastFetch := lastFetch', session := st.session }, [])

example : normalizeEventType "ORDER_CREATED.v2" = "order.created" := by decide

example : normalizeEventType "something.else" = "something.else" := by decide

/-! ### Concrete records used by the per-claim evaluations -/

/-- An order already assigned to a driver. -/
def c1existing : Order :=
  { id := "O1", user_id := some "u1", user_name := some "u1",
    items := some ["Burger"], total := some (.fin 8), status := some "assigned",
    driver_id := some "D1", driver_name := some "Dan",
    payment_status := some "paid", assigning := some false }

/-- An `order.updated` merge record carrying a stale `pending` status (the
shape `handleSubmit`/the socket handler hands to `upsertOrderPure`). -/
def c1incoming : POrder :=
  { id := "O1", status := some (some "pending"), user_name := some (some "serverName") }

/-- An order with populated items. -/
def c2existing : Order :=
  { id := "O2", user_id := some "u1", items := some ["Burger", "Coke"],
    total := some (.fin 11), status := some "pending" }

/-- A partial merge record whose `items` property is an empty array (the
handler's `unified.items` is `[]` whenever the payload has no items and the
point fetch fails). -/
def c2incoming : POrder := { id := "O2", items := some (some []) }

/-- Store state before the C6 event: `O1` holds a finite total. -/
def c6st : HandlerState :=
  { orders := [{ id := "O1", user_id := some "u1", items := some ["Burger"],
                 total := some (.fin 8), status := some "pending" }] }

/-- A `payment.completed` frame whose payload carries only the order id —
no `total`/`total_amount` property. -/
def c6msg : Msg := { mtype := .val "payment.completed", data := .val { order_id := .val "O1" } }

/-- A `driver.assigned` frame for an order id that is not in the store. -/
def c3msg : Msg :=
  { mtype := .val "driver.assigned",
    data := .val { order_id := .val "O9", driver_id := .val "D7" } }

/-- Store state holding `O1` as paid-with-driver, the state reachable by
merging `{id, status: "paid", driver_id: "D1"}` into an empty store. -/
def c4prev : List Order :=
  [{ id := "O1", user_id := some "u1", items := some ["Burger"],
     total := some (.fin 8), status := some "paid", driver_id := some "D1",
     payment_status := some "pending", assigning := some false }]

/-- A merge record whose `driver_id` property is present but null — exactly
what the handler's `unified` record contains whenever neither the payload
nor the fetch supplies a driver (`driver_id: ... ?? null`). -/
def c4incoming : POrder := { id := "O1", driver_id := some none }

/-- A frame whose kind normalizes to the unrecognized `"weird.thing"`. -/
def c7msg : Msg := { mtype := .val "weird.thing", data := .val { order_id := .val "O5" } }

/-- A merge record with `payment_status` paid but lifecycle status pending. -/
def c8incoming : POrder :=
  { id := "O1", status := some (some "pending"), payment_status := some (some "paid") }

/-! ### C1 — status monotonicity fails on the code -/

/-- C1 (code bug, evaluation at the failing input): merging an incoming
record with status `pending` into an order held at `assigned` stores
`pending` — the trailing `...incoming` spread overwrites the value
`pickStatus` picked, so the stored rank drops from 4 to 1 even though the
other incoming fields (here `user_name`) merge as described. -/
theorem upsertStatusRegression :
    ((upsertOrderPure none [c1existing] c1incoming).find?
        (fun o => o.id = "O1")).map (fun o => (o.status, o.user_name)) =
      some (some "pending", some "serverName") ∧
    statusRank "pending" < statusRank "assigned" := by decide

/-! ### C2 — empty incoming items clobber populated items -/

/-- C2 (code bug, evaluation at the failing input): merging a record whose
`items` property is `[]` into an order with non-empty items stores `[]` —
the `...incoming` spread overwrites the list `mergeItems` preserved. -/
theorem upsertItemsClobbered :
    ((upsertOrderPure none [c2existing] c2incoming).find?
        (fun o => o.id = "O2")).map (·.items) = some (some []) ∧
    c2existing.items = some ["Burger", "Coke"] := by decide

/-! ### C6 — NaN is stored as a total -/

/-- C6 (code bug, evaluation at the failing input): a socket event whose
payload has no `total`/`total_amount` makes the handler compute
`Number(undefined) = NaN` for `unified.total`, and the `...incoming` spread
pushes that NaN past `safeNumber` into the store, replacing the finite 8. -/
theorem handlerStoresNaN :
    (((handleMessage none 100000 none c6st c6msg).1.orders.find?
        (fun o => o.id = "O1")).map (·.total)) = some (some .nonfin) ∧
    ((c6st.orders.find? (fun o => o.id = "O1")).map (·.total)) =
      some (some (.fin 8)) := by decide

/-! ### C3 — a phantom row is fabricated on fetch failure -/

/-- C3 counterexample: a `driver.assigned` event for unknown order `O9`
whose point fetch fails (`fetchResult = none`) does NOT leave the store
unchanged — the handler upserts the unified record anyway and a row for
`O9` appears, refuting the claim at this input. -/
theorem handlerFabricatesRow :
    ((handleMessage none 100000 none { orders := [] } c3msg).1.orders.map (·.id)) =
      ["O9"] := by decide

/-! ### C4 — merging the same event twice is not idempotent -/

/-- C4 counterexample: re-merging the very record the socket handler
produces (present-but-null `driver_id`) flips the recomputed `assigning`
flag: the first merge sees the existing driver `D1` (flag false) but also
nulls the stored driver via the spread, so the second merge sees no driver
and a paid status (flag true).  Twice ≠ once. -/
theorem upsertNotIdempotent :
    upsertOrderPure none (upsertOrderPure none c4prev c4incoming) c4incoming ≠
      upsertOrderPure none c4prev c4incoming := by decide

/-! ### C7 — unknown event kinds still mutate the store -/

/-- C7 counterexample: an event of unrecognized kind `weird.thing` emits no
toast, but the store is mutated all the same (the upsert happens before the
switch), creating a row for `O5` — refuting "no store mutation". -/
theorem unknownKindMutatesStore :
    ((handleMessage none 100000 none { orders := [] } c7msg).1.orders.map (·.id)) =
      ["O5"] ∧
    (handleMessage none 100000 none { orders := [] } c7msg).2 = [] ∧
    normalizeEventType (kindOf c7msg) ∉ recognizedKinds := by decide

/-! ### C8 — the assigning flag is not `status = paid ∧ no driver` -/

/-- C8 counterexample: a merge record with `payment_status = "paid"` but
lifecycle status `pending` and no driver yields `assigning = true` while
the merged status is not `paid` — refuting the claimed iff
(`computeAssigning` also fires on `payment_status === "paid"`). -/
theorem assigningWithoutPaidStatus :
    ((upsertOrderPure none [] c8incoming).find? (fun o => o.id = "O1")).map
        (fun o => (o.assigning, o.status, o.driver_id)) =
      some (some true, some "pending", none) := by decide

/-! ### Lookup lemmas for the list-rebuilding step -/

/-- A value produced by the id-keyed map lookup carries the looked-up id. -/
theorem lastFind_id {l : List Order} {i : String} {v : Order}
    (h : lastFind l i = some v) : v.id = i := by
  simpa using List.find?_some h

/-- The map lookup misses exactly when no element has the id. -/
theorem lastFind_eq_none {l : List Order} {i : String} :
    lastFind l i = none ↔ ∀ p ∈ l, p.id ≠ i := by
  simp [lastFind, List.find?_eq_none]

/-- Any member's id hits the map. -/
theorem lastFind_isSome_of_mem {l : List Order} {q : Order} (h : q ∈ l) :
    ∃ v, lastFind l q.id = some v := by
  cases hl : lastFind l q.id with
  | some v => exact ⟨v, rfl⟩
  | none => exact absurd rfl (lastFind_eq_none.mp hl q h)

/-- `find?` by id commutes with mapping an id-preserving function. -/
theorem find?_map_id_pres {l : List Order} {g : Order → Order}
    (hg : ∀ q ∈ l, (g q).id = q.id) (i : String) :
    (l.map g).find? (fun o => o.id = i) = (l.find? (fun o => o.id = i)).map g := by
  induction l with
  | nil => rfl
  | cons q t ih =>
    have hq := hg q (List.mem_cons_self q t)
    by_cases h : q.id = i
    · rw [List.map_cons, List.find?_cons_of_pos _ (by simp [hq, h]),
        List.find?_cons_of_pos _ (by simp [h])]
      rfl
    · rw [List.map_cons, List.find?_cons_of_neg _ (by simp [hq, h]),
        List.find?_cons_of_neg _ (by simp [h])]
      exact ih (fun r hr => hg r (List.mem_cons_of_mem q hr))

/-- The rebuilding function of `upsertList` preserves ids. -/
theorem upsert_g_id {prev : List Order} {merged : Order} :
    ∀ q ∈ prev,
      ((fun p => if p.id = merged.id then merged else (lastFind prev p.id).getD p) q).id
        = q.id := by
  intro q hq
  by_cases hqm : q.id = merged.id
  · simp [hqm]
  · obtain ⟨v, hv⟩ := lastFind_isSome_of_mem hq
    simp only [if_neg hqm, hv, Option.getD_some]
    exact lastFind_id hv

/-- Looking up any id other than the merged one in the rebuilt list returns
the last-duplicate value it had before the upsert. -/
theorem find?_upsertList_ne {prev : List Order} {merged : Order} {i : String}
    (h : i ≠ merged.id) :
    (upsertList prev merged).find? (fun o => o.id = i) = lastFind prev i := by
  have core : ((prev.find? (fun o => o.id = i)).map
      (fun p => if p.id = merged.id then merged else (lastFind prev p.id).getD p))
        = lastFind prev i := by
    cases hf : prev.find? (fun o => o.id = i) with
    | none =>
      have : ∀ p ∈ prev, p.id ≠ i := by
        intro p hp
        simpa using List.find?_eq_none.mp hf p hp
      simp [lastFind_eq_none.mpr this]
    | some x =>
      have hx : x.id = i := by simpa using List.find?_some hf
      obtain ⟨v, hv⟩ := lastFind_isSome_of_mem (List.mem_of_find?_eq_some hf)
      rw [hx] at hv
      simp [Option.map_some', hx, hv, h]
  unfold upsertList
  by_cases hnew : prev.all (fun p => p.id ≠ merged.id)
  · simp only [if_pos hnew]
    rw [List.find?_cons_of_neg _ (by simpa using Ne.symm h),
      find?_map_id_pres upsert_g_id i, core]
  · simp only [if_neg hnew]
    rw [find?_map_id_pres upsert_g_id i, core]

/-- The last-duplicate lookup, away from the merged id, is unchanged by an
upsert. -/
theorem lastFind_upsertList_ne {prev : List Order} {merged : Order} {i : String}
    (h : i ≠ merged.id) :
    lastFind (upsertList prev merged) i = lastFind prev i := by
  have hgrev : ∀ q ∈ prev.reverse,
      ((fun p => if p.id = merged.id then merged else (lastFind prev p.id).getD p) q).id
        = q.id :=
    fun q hq => upsert_g_id q (List.mem_reverse.mp hq)
  have core : ((prev.map (fun p => if p.id = merged.id then merged
      else (lastFind prev p.id).getD p)).reverse).find? (fun o => o.id = i)
        = lastFind prev i := by
    rw [← List.map_reverse, find?_map_id_pres hgrev i]
    cases hv : lastFind prev i with
    | none => rw [show prev.reverse.find? (fun o => decide (o.id = i)) = none from hv]; rfl
    | some x =>
      have hx := lastFind_id hv
      rw [show prev.reverse.find? (fun o => decide (o.id = i)) = some x from hv]
      simp [hx, hv, h]
  show (upsertList prev merged).reverse.find? (fun o => o.id = i) = lastFind prev i
  unfold upsertList
  by_cases hnew : prev.all (fun p => p.id ≠ merged.id)
  · rw [if_pos hnew, List.reverse_cons, List.find?_append, core]
    have hm : [merged].find? (fun o => o.id = i) = none := by simp [Ne.symm h]
    rw [hm, Option.or_none]
  · rw [if_neg hnew]
    exact core

/-- After an upsert the merged id looks up the merged record (first
occurrence). -/
theorem find?_upsertList_self {prev : List Order} {merged : Order} :
    (upsertList prev merged).find? (fun o => o.id = merged.id) = some merged := by
  unfold upsertList
  by_cases hnew : prev.all (fun p => p.id ≠ merged.id)
  · simp only [if_pos hnew]
    exact List.find?_cons_of_pos _ (by simp)
  · simp only [if_neg hnew]
    rw [find?_map_id_pres upsert_g_id merged.id]
    have : ∃ q ∈ prev, q.id = merged.id := by
      simpa using hnew
    obtain ⟨q, hq, hqid⟩ := this
    cases hf : prev.find? (fun o => o.id = merged.id) with
    | none => exact absurd hqid (by simpa using List.find?_eq_none.mp hf q hq)
    | some x =>
      have hx : x.id = merged.id := by simpa using List.find?_some hf
      simp [hx]

/-- After an upsert the merged id looks up the merged record (last
occurrence too: every slot with that id holds the merged record). -/
theorem lastFind_upsertList_self {prev : List Order} {merged : Order} :
    lastFind (upsertList prev merged) merged.id = some merged := by
  have hgrev : ∀ q ∈ prev.reverse,
      ((fun p => if p.id = merged.id then merged else (lastFind prev p.id).getD p) q).id
        = q.id :=
    fun q hq => upsert_g_id q (List.mem_reverse.mp hq)
  have core : ((prev.map (fun p => if p.id = merged.id then merged
      else (lastFind prev p.id).getD p)).reverse).find? (fun o => o.id = merged.id)
        = (prev.reverse.find? (fun o => o.id = merged.id)).map
            (fun p => if p.id = merged.id then merged else (lastFind prev p.id).getD p) := by
    rw [← List.map_reverse, find?_map_id_pres hgrev]
  show (upsertList prev merged).reverse.find? (fun o => o.id = merged.id) = some merged
  unfold upsertList
  by_cases hnew : prev.all (fun p => p.id ≠ merged.id)
  · rw [if_pos hnew, List.reverse_cons, List.find?_append, core]
    have hnone : prev.reverse.find? (fun o => decide (o.id = merged.id)) = none := by
      rw [List.find?_eq_none]
      intro x hx
      have hx2 := List.all_eq_true.mp hnew x (List.mem_reverse.mp hx)
      simpa using hx2
    rw [hnone]
    simp
  · rw [if_neg hnew, core]
    have hex : ∃ q ∈ prev, q.id = merged.id := by simpa using hnew
    obtain ⟨q, hq, hqid⟩ := hex
    cases hf : prev.reverse.find? (fun o => decide (o.id = merged.id)) with
    | none =>
      have hq2 := List.find?_eq_none.mp hf q (List.mem_reverse.mpr hq)
      exact absurd hqid (by simpa using hq2)
    | some x =>
      have hx : x.id = merged.id := by simpa using List.find?_some hf
      simp [hx]

/-- Membership in the upserted list: either the merged record, or an
untouched last-duplicate copy of a differently-keyed record. -/
theorem mem_upsertList {prev : List Order} {merged : Order} {p : Order}
    (hp : p ∈ upsertList prev merged) :
    (p.id = merged.id ∧ p = merged) ∨
    (p.id ≠ merged.id ∧ lastFind prev p.id = some p) := by
  have hmap : ∀ q ∈ prev,
      (if q.id = merged.id then merged else (lastFind prev q.id).getD q) = p →
      (p.id = merged.id ∧ p = merged) ∨
      (p.id ≠ merged.id ∧ lastFind prev p.id = some p) := by
    intro q hq hgq
    by_cases hqm : q.id = merged.id
    · rw [if_pos hqm] at hgq
      exact Or.inl ⟨by rw [← hgq], hgq.symm⟩
    · rw [if_neg hqm] at hgq
      obtain ⟨v, hv⟩ := lastFind_isSome_of_mem hq
      rw [hv, Option.getD_some] at hgq
      have hpid : p.id = q.id := by rw [← hgq]; exact lastFind_id hv
      exact Or.inr ⟨hpid ▸ hqm, by rw [hpid, hv, hgq]⟩
  unfold upsertList at hp
  by_cases hnew : prev.all (fun p => p.id ≠ merged.id)
  · rw [if_pos hnew] at hp
    rcases List.mem_cons.mp hp with rfl | hp
    · exact Or.inl ⟨rfl, rfl⟩
    · obtain ⟨q, hq, hgq⟩ := List.mem_map.mp hp
      exact hmap q hq hgq
  · rw [if_neg hnew] at hp
    obtain ⟨q, hq, hgq⟩ := List.mem_map.mp hp
    exact hmap q hq hgq

/-- Every member of an upserted list is the (unique) value its own id looks
up: all slots sharing an id hold equal records. -/
theorem lastFind_upsertList_of_mem {prev : List Order} {merged : Order} {p : Order}
    (hp : p ∈ upsertList prev merged) :
    lastFind (upsertList prev merged) p.id = some p := by
  rcases mem_upsertList hp with ⟨hid, rfl⟩ | ⟨hid, hlf⟩
  · rw [hid]
    exact lastFind_upsertList_self
  · rw [lastFind_upsertList_ne hid]
    exact hlf

/-- Both object-literal branches of the merge set `id := incoming.id` (and
the trailing spread re-asserts it). -/
theorem mergeOrder_id (cur : Option String) (ex : Option Order) (inc : POrder) :
    (mergeOrder cur ex inc).id = inc.id := by
  cases ex <;> rfl

/-! ### C5 — order-independence for disjoint orders -/

/-- C5: applying two incoming records with distinct ids in either order
yields the same record for every order id (the list order may differ — new
rows are prepended — but every id looks up the same record). -/
theorem upsertDisjointCommutes (cur : Option String) (prev : List Order)
    (a b : POrder) (hab : a.id ≠ b.id) (i : String) :
    (upsertOrderPure cur (upsertOrderPure cur prev a) b).find? (fun o => o.id = i) =
    (upsertOrderPure cur (upsertOrderPure cur prev b) a).find? (fun o => o.id = i) := by
  have hmaid : (mergeOrder cur (lastFind prev a.id) a).id = a.id :=
    mergeOrder_id cur (lastFind prev a.id) a
  have hmbid : (mergeOrder cur (lastFind prev b.id) b).id = b.id :=
    mergeOrder_id cur (lastFind prev b.id) b
  unfold upsertOrderPure
  rw [lastFind_upsertList_ne (show b.id ≠ (mergeOrder cur (lastFind prev a.id) a).id by
        rw [hmaid]; exact Ne.symm hab),
    lastFind_upsertList_ne (show a.id ≠ (mergeOrder cur (lastFind prev b.id) b).id by
        rw [hmbid]; exact hab)]
  by_cases hia : i = a.id
  · subst hia
    rw [find?_upsertList_ne (show a.id ≠ (mergeOrder cur (lastFind prev b.id) b).id by
        rw [hmbid]; exact hab)]
    have hlselfA : lastFind (upsertList prev (mergeOrder cur (lastFind prev a.id) a)) a.id
        = some (mergeOrder cur (lastFind prev a.id) a) := by
      have h2 := @lastFind_upsertList_self prev
        (mergeOrder cur (lastFind prev a.id) a)
      rwa [hmaid] at h2
    rw [hlselfA]
    have hselfA : (upsertList (upsertList prev (mergeOrder cur (lastFind prev b.id) b))
        (mergeOrder cur (lastFind prev a.id) a)).find? (fun o => o.id = a.id)
          = some (mergeOrder cur (lastFind prev a.id) a) := by
      have h2 := @find?_upsertList_self
        (upsertList prev (mergeOrder cur (lastFind prev b.id) b))
        (mergeOrder cur (lastFind prev a.id) a)
      rwa [hmaid] at h2
    rw [hselfA]
  · by_cases hib : i = b.id
    · subst hib
      rw [find?_upsertList_ne (show b.id ≠ (mergeOrder cur (lastFind prev a.id) a).id by
          rw [hmaid]; exact Ne.symm hab)]
      have hselfB : (upsertList (upsertList prev (mergeOrder cur (lastFind prev a.id) a))
          (mergeOrder cur (lastFind prev b.id) b)).find? (fun o => o.id = b.id)
            = some (mergeOrder cur (lastFind prev b.id) b) := by
        have h2 := @find?_upsertList_self
          (upsertList prev (mergeOrder cur (lastFind prev a.id) a))
          (mergeOrder cur (lastFind prev b.id) b)
        rwa [hmbid] at h2
      rw [hselfB]
      have hlselfB : lastFind (upsertList prev (mergeOrder cur (lastFind prev b.id) b)) b.id
          = some (mergeOrder cur (lastFind prev b.id) b) := by
        have h2 := @lastFind_upsertList_self prev
          (mergeOrder cur (lastFind prev b.id) b)
        rwa [hmbid] at h2
      rw [hlselfB]
    · rw [find?_upsertList_ne (show i ≠ (mergeOrder cur (lastFind prev b.id) b).id by
          rw [hmbid]; exact hib),
        find?_upsertList_ne (show i ≠ (mergeOrder cur (lastFind prev a.id) a).id by
          rw [hmaid]; exact hia),
        lastFind_upsertList_ne (show i ≠ (mergeOrder cur (lastFind prev a.id) a).id by
          rw [hmaid]; exact hia),
        lastFind_upsertList_ne (show i ≠ (mergeOrder cur (lastFind prev b.id) b).id by
          rw [hmbid]; exact hib)]

/-- A store with one order, used to instantiate C5. -/
def w5prev : List Order :=
  [{ id := "A1", user_id := some "u1", items := some ["Burger"],
     total := some (.fin 8), status := some "pending" }]

/-- An event for order `A1`. -/
def w5a : POrder := { id := "A1", status := some (some "paid") }

/-- An event for order `B1`. -/
def w5b : POrder := { id := "B1", status := some (some "pending"), items := some (some ["Coke"]) }

/-- Witness for C5 at a concrete input. -/
theorem upsertDisjointCommutes_witness :
    w5a.id ≠ w5b.id ∧
    (upsertOrderPure none (upsertOrderPure none w5prev w5a) w5b).find?
        (fun o => o.id = "A1") =
      (upsertOrderPure none (upsertOrderPure none w5prev w5b) w5a).find?
        (fun o => o.id = "A1") :=
  ⟨by decide, upsertDisjointCommutes none w5prev w5a w5b (by decide) "A1"⟩

/-! ### C8 (amended) — the assigning flag is recomputed, with its real rule -/

/-- C8 (amended): as long as the incoming record does not itself carry an
`assigning` property (the trailing spread would copy that verbatim), the
flag stored for the merged id is exactly the recomputation
`computeAssigning existing incoming`; and that recomputation holds iff the
driver id picked from incoming-else-existing is not truthy AND the status
or the payment_status picked the same way equals `"paid"` (so
`payment_status = "paid"` also raises the flag, beyond the claimed rule). -/
theorem assigningRecomputed (cur : Option String) (prev : List Order) (inc : POrder)
    (hA : inc.assigning = none) :
    ((upsertOrderPure cur prev inc).find? (fun o => o.id = inc.id)).map (·.assigning)
      = some (some (computeAssigning (lastFind prev inc.id) inc)) ∧
    (computeAssigning (lastFind prev inc.id) inc = true ↔
      jsTruthyStr (pCoal inc.driver_id ((lastFind prev inc.id).bind (·.driver_id))) = false ∧
      (pCoal inc.status ((lastFind prev inc.id).bind (·.status)) = some "paid" ∨
       pCoal inc.payment_status ((lastFind prev inc.id).bind (·.payment_status))
         = some "paid")) := by
  constructor
  · unfold upsertOrderPure
    have h2 := @find?_upsertList_self prev
      (mergeOrder cur (lastFind prev inc.id) inc)
    rw [mergeOrder_id cur (lastFind prev inc.id) inc] at h2
    rw [h2]
    cases hL : lastFind prev inc.id <;> simp [mergeOrder, spreadF, hA]
  · cases hd : jsTruthyStr (pCoal inc.driver_id ((lastFind prev inc.id).bind (·.driver_id)))
    · by_cases hsp : (pCoal inc.status ((lastFind prev inc.id).bind (·.status)) = some "paid" ∨
          pCoal inc.payment_status ((lastFind prev inc.id).bind (·.payment_status))
            = some "paid")
      · simp [computeAssigning, hd, hsp]
      · simp [computeAssigning, hd, hsp]
    · simp [computeAssigning, hd]

/-- An existing record for the C8 witness: paid, no driver. -/
def w8prev : List Order :=
  [{ id := "O1", user_id := some "u1", items := some ["Burger"],
     total := some (.fin 8), status := some "paid", payment_status := some "pending" }]

/-- An incoming update without an `assigning` property. -/
def w8inc : POrder := { id := "O1", user_name := some (some "server") }

/-- Witness for C8 (amended) at a concrete input. -/
theorem assigningRecomputed_witness :
    w8inc.assigning = none ∧
    (((upsertOrderPure none w8prev w8inc).find? (fun o => o.id = w8inc.id)).map
        (·.assigning) = some (some (computeAssigning (lastFind w8prev w8inc.id) w8inc)) ∧
      (computeAssigning (lastFind w8prev w8inc.id) w8inc = true ↔
        jsTruthyStr (pCoal w8inc.driver_id
          ((lastFind w8prev w8inc.id).bind (·.driver_id))) = false ∧
        (pCoal w8inc.status ((lastFind w8prev w8inc.id).bind (·.status)) = some "paid" ∨
         pCoal w8inc.payment_status
           ((lastFind w8prev w8inc.id).bind (·.payment_status)) = some "paid"))) :=
  ⟨by decide, assigningRecomputed none w8prev w8inc (by decide)⟩

/-! ### C3 (amended) — fetch failure still creates the row -/

/-- Upserting a fresh id prepends the merged record and keeps every other
id in place. -/
theorem upsertList_ids_of_new {prev : List Order} {merged : Order}
    (hnew : ∀ p ∈ prev, p.id ≠ merged.id) :
    (upsertList prev merged).map (·.id) = merged.id :: prev.map (·.id) := by
  unfold upsertList
  rw [if_pos (List.all_eq_true.mpr (fun x hx => by simpa using hnew x hx))]
  simp only [List.map_cons, List.map_map]
  congr 1
  exact List.map_congr_left (fun q hq => upsert_g_id q hq)

/-- C3 (amended): a partial event for an order id that is not in the store
whose point fetch fails is NOT discarded — the handler still merges the
`unified` record built from defaults, so a new row with that id appears at
the front of the list (the rest keeps its ids in place). -/
theorem fetchFailureCreatesRow (cur : Option String) (now : Int) (st : HandlerState)
    (msg : Msg) (oid : String)
    (hkind : normalizeEventType (kindOf msg) = "driver.assigned")
    (hoid : oidOf msg = some oid)
    (hunknown : ∀ p ∈ st.orders, p.id ≠ oid) :
    ((handleMessage cur now none st msg).1.orders.map (·.id)) =
      oid :: st.orders.map (·.id) := by
  have hmid : (mergeOrder cur (lastFind st.orders oid)
      (unifiedOf oid (payloadOf msg) none)).id = oid :=
    mergeOrder_id cur _ _
  unfold handleMessage
  rw [hkind, hoid]
  simp only [if_neg (by decide : ¬ ("driver.assigned" : String) = ""),
    if_pos (by decide : ("driver.assigned" : String) ∈ recognizedKinds),
    if_neg (by decide : ¬ ("driver.assigned" : String) = "order.deleted"), ite_self]
  unfold upsertOrderPure
  rw [show (unifiedOf oid (payloadOf msg) none).id = oid from rfl,
    upsertList_ids_of_new (fun p hp => by rw [hmid]; exact hunknown p hp), hmid]

/-- Store state for the C3 witness: one unrelated order present. -/
def w3st : HandlerState :=
  { orders := [{ id := "O1", user_id := some "u1", items := some ["Burger"],
                 total := some (.fin 8), status := some "pending" }] }

/-- Witness for C3 (amended) at a concrete input. -/
theorem fetchFailureCreatesRow_witness :
    normalizeEventType (kindOf c3msg) = "driver.assigned" ∧
    oidOf c3msg = some "O9" ∧
    (∀ p ∈ w3st.orders, p.id ≠ "O9") ∧
    ((handleMessage none 100000 none w3st c3msg).1.orders.map (·.id)) =
      "O9" :: w3st.orders.map (·.id) :=
  ⟨by decide, by decide, by decide,
    fetchFailureCreatesRow none 100000 w3st c3msg "O9" (by decide) (by decide) (by decide)⟩

/-! ### C7 (amended) — unknown kinds: no toast, but the merge still happens -/

/-- C7 (amended): an event whose normalized kind is outside the recognized
set fires no toast and leaves the dedup store untouched, but it does NOT
leave the order list untouched: the unified record is merged through
`upsertOrderPure` exactly as for a recognized kind. -/
theorem unknownKindNotNotified (cur : Option String) (now : Int)
    (fetchResult : Option Order) (st : HandlerState) (msg : Msg) (oid : String)
    (hkind : normalizeEventType (kindOf msg) ∉ recognizedKinds)
    (hne : normalizeEventType (kindOf msg) ≠ "")
    (hoid : oidOf msg = some oid) :
    (handleMessage cur now fetchResult st msg).2 = [] ∧
    (handleMessage cur now fetchResult st msg).1.session = st.session ∧
    (handleMessage cur now fetchResult st msg).1.orders =
      upsertOrderPure cur st.orders (unifiedOf oid (payloadOf msg)
        (if shouldFetch now st (payloadOf msg) oid then fetchResult else none)) := by
  unfold handleMessage
  simp only [if_neg hne, hoid]
  simp only [if_neg hkind]
  exact ⟨trivial, trivial, trivial⟩

/-- Witness for C7 (amended) at a concrete input. -/
theorem unknownKindNotNotified_witness :
    normalizeEventType (kindOf c7msg) ∉ recognizedKinds ∧
    normalizeEventType (kindOf c7msg) ≠ "" ∧
    oidOf c7msg = some "O5" ∧
    ((handleMessage none 100000 none w3st c7msg).2 = [] ∧
      (handleMessage none 100000 none w3st c7msg).1.session = w3st.session ∧
      (handleMessage none 100000 none w3st c7msg).1.orders =
        upsertOrderPure none w3st.orders (unifiedOf "O5" (payloadOf c7msg)
          (if shouldFetch 100000 w3st (payloadOf c7msg) "O5" then none else none))) :=
  ⟨by decide, by decide, by decide,
    unknownKindNotNotified none 100000 none w3st c7msg "O5" (by decide) (by decide)
      (by decide)⟩

/-! ### C9 — the notification dedup window -/

/-- Removing entries of a different key does not change a key's lookup. -/
theorem find?_filter_ne {st : List (String × Int)} {k k' : String} (h : k ≠ k') :
    (st.filter (fun p => p.1 ≠ k')).find? (fun p => p.1 = k)
      = st.find? (fun p => p.1 = k) := by
  induction st with
  | nil => rfl
  | cons q t ih =>
    by_cases hq : q.1 = k
    · have hq' : ¬ q.1 = k' := by rw [hq]; exact h
      rw [List.filter_cons_of_pos (by simpa using hq'),
        List.find?_cons_of_pos _ (by simpa using hq),
        List.find?_cons_of_pos _ (by simpa using hq)]
    · by_cases hq' : q.1 = k'
      · rw [List.filter_cons_of_neg (by simpa using hq'),
          List.find?_cons_of_neg _ (by simpa using hq), ih]
      · rw [List.filter_cons_of_pos (by simpa using hq'),
          List.find?_cons_of_neg _ (by simpa using hq),
          List.find?_cons_of_neg _ (by simpa using hq), ih]

/-- A `setItem` for a different key does not change a key's recorded time. -/
theorem sessionGet_insert_ne {st : List (String × Int)} {k k' : String} {v : Int}
    (h : k' ≠ k) :
    sessionGet ((k', v) :: st.filter (fun p => p.1 ≠ k')) k = sessionGet st k := by
  unfold sessionGet
  rw [List.find?_cons_of_neg _ (by simpa using h), find?_filter_ne (Ne.symm h)]

/-- C9: the dedup window behaviour of `pushDedupToast`.  A call with no
entry recorded within the window fires and records its time; a repeat call
after δ < w is suppressed and leaves the store unchanged; a repeat after
δ' > w fires and re-records; and calls on a different key neither disturb
the recorded time nor lift the suppression. -/
theorem dedupWindow (k k' : String) (t δ δ' u w : Int) (st : List (String × Int))
    (hfresh : ∀ t0, sessionGet st k = some t0 → w ≤ t - t0)
    (hδ : δ < w) (hδ' : w < δ') (hkk : k' ≠ k) :
    pushDedupToast k t w st = (true, (k, t) :: st.filter (fun p => p.1 ≠ k)) ∧
    pushDedupToast k (t + δ) w ((k, t) :: st.filter (fun p => p.1 ≠ k))
      = (false, (k, t) :: st.filter (fun p => p.1 ≠ k)) ∧
    (pushDedupToast k (t + δ') w ((k, t) :: st.filter (fun p => p.1 ≠ k))).1 = true ∧
    sessionGet (pushDedupToast k (t + δ') w
      ((k, t) :: st.filter (fun p => p.1 ≠ k))).2 k = some (t + δ') ∧
    sessionGet (pushDedupToast k' u w
      ((k, t) :: st.filter (fun p => p.1 ≠ k))).2 k = some t ∧
    (pushDedupToast k (t + δ) w (pushDedupToast k' u w
      ((k, t) :: st.filter (fun p => p.1 ≠ k))).2).1 = false := by
  have hg : sessionGet ((k, t) :: st.filter (fun p => p.1 ≠ k)) k = some t := by
    simp [sessionGet]
  have hsup : ∀ s2 : List (String × Int), sessionGet s2 k = some t →
      pushDedupToast k (t + δ) w s2 = (false, s2) := by
    intro s2 hs2
    simp [pushDedupToast, hs2, hδ]
  have hfire : ∀ s2 : List (String × Int), sessionGet s2 k = some t →
      pushDedupToast k (t + δ') w s2
        = (true, (k, t + δ') :: s2.filter (fun p => p.1 ≠ k)) := by
    intro s2 hs2
    simp [pushDedupToast, hs2, show ¬ δ' < w by omega]
  have hrec : ∀ s2 : List (String × Int), sessionGet s2 k = some t →
      sessionGet (pushDedupToast k' u w s2).2 k = some t := by
    intro s2 hs2
    unfold pushDedupToast
    cases hk' : sessionGet s2 k' with
    | none =>
      show sessionGet ((k', u) :: s2.filter (fun p => p.1 ≠ k')) k = some t
      rw [sessionGet_insert_ne hkk]
      exact hs2
    | some t1 =>
      by_cases hred : u - t1 < w
      · have hc : (((some t1).elim false fun x => decide (u - x < w)) = true) := by
          simpa using hred
        rw [if_pos hc]
        exact hs2
      · have hc : ¬ (((some t1).elim false fun x => decide (u - x < w)) = true) := by
          simpa using hred
        rw [if_neg hc]
        show sessionGet ((k', u) :: s2.filter (fun p => p.1 ≠ k')) k = some t
        rw [sessionGet_insert_ne hkk]
        exact hs2
  have h1 : pushDedupToast k t w st = (true, (k, t) :: st.filter (fun p => p.1 ≠ k)) := by
    cases hk : sessionGet st k with
    | none => simp [pushDedupToast, hk]
    | some t0 =>
      have hw := hfresh t0 hk
      simp [pushDedupToast, hk, show ¬ t - t0 < w by omega]
  refine ⟨h1, hsup _ hg, ?_, ?_, hrec _ hg, ?_⟩
  · rw [hfire _ hg]
  · rw [hfire _ hg]
    simp [sessionGet]
  · rw [hsup _ (hrec _ hg)]

/-- Witness for C9 at a concrete input: window 6000 ms, repeat after
5999 ms suppressed, after 6001 ms fired, other key independent. -/
theorem dedupWindow_witness :
    (5999 : Int) < 6000 ∧ (6000 : Int) < 6001 ∧
    (pushDedupToast "WS:O1:order.created" 1000 6000 []
        = (true, [("WS:O1:order.created", 1000)]) ∧
      pushDedupToast "WS:O1:order.created" (1000 + 5999) 6000
          [("WS:O1:order.created", 1000)]
        = (false, [("WS:O1:order.created", 1000)]) ∧
      (pushDedupToast "WS:O1:order.created" (1000 + 6001) 6000
          [("WS:O1:order.created", 1000)]).1 = true ∧
      sessionGet (pushDedupToast "WS:O1:order.created" (1000 + 6001) 6000
          [("WS:O1:order.created", 1000)]).2 "WS:O1:order.created"
        = some (1000 + 6001) ∧
      sessionGet (pushDedupToast "WS:O2:order.created" 1200 6000
          [("WS:O1:order.created", 1000)]).2 "WS:O1:order.created" = some 1000 ∧
      (pushDedupToast "WS:O1:order.created" (1000 + 5999) 6000
          (pushDedupToast "WS:O2:order.created" 1200 6000
            [("WS:O1:order.created", 1000)]).2).1 = false) := by
  refine ⟨by decide, by decide, ?_⟩
  have h := dedupWindow "WS:O1:order.created" "WS:O2:order.created" 1000 5999 6001 1200
    6000 [] (fun t0 h0 => by simp [sessionGet] at h0) (by decide) (by decide) (by decide)
  simpa using h

/-! ### C10 — event-kind normalization is idempotent -/

/-- `Char.ofNat` at a valid code point reads back. -/
theorem toNat_ofNat_valid {n : Nat} (h : n.isValidChar) : (Char.ofNat n).toNat = n := by
  rw [Char.ofNat, dif_pos h]
  rfl

/-- ASCII lowering is idempotent. -/
theorem lowerChar_idem (c : Char) : lowerChar (lowerChar c) = lowerChar c := by
  unfold lowerChar
  by_cases h : 65 ≤ c.toNat ∧ c.toNat ≤ 90
  · have hv : (c.toNat + 32).isValidChar := Or.inl (show c.toNat + 32 < 55296 by omega)
    have ht : (Char.ofNat (c.toNat + 32)).toNat = c.toNat + 32 := toNat_ofNat_valid hv
    rw [if_pos h, ht, if_neg (by omega)]
  · rw [if_neg h, if_neg h]

/-- JS `toLowerCase` is idempotent. -/
theorem jsLower_idem (s : String) : jsLower (jsLower s) = jsLower s := by
  show String.mk (((String.mk (s.data.map lowerChar)).data).map lowerChar)
    = String.mk (s.data.map lowerChar)
  rw [show (String.mk (s.data.map lowerChar)).data = s.data.map lowerChar from rfl,
    List.map_map]
  exact congrArg String.mk (List.map_congr_left (fun c _ => lowerChar_idem c))

/-- Lowering never turns a non-empty string empty. -/
theorem jsLower_ne_empty {s : String} (h : s ≠ "") : jsLower s ≠ "" := by
  intro he
  apply h
  have hd : s.data.map lowerChar = [] := congrArg String.data he
  have hnil : s.data = [] := List.map_eq_nil_iff.mp hd
  cases s with
  | mk l => cases hnil; rfl

/-- The closed set of canonical kinds `normCore` can produce besides the
lowered input itself. -/
def canonKinds : List String :=
  ["order.created", "order.updated", "payment.completed", "driver.assigned",
   "driver.pending", "driver.failed", "delivery.completed", "order.deleted"]

/-- `normCore` returns its input or one of the canonical kinds. -/
theorem normCore_cases (s : String) : normCore s = s ∨ normCore s ∈ canonKinds := by
  unfold normCore
  repeat' split
  all_goals first
  | (left; rfl)
  | (right; decide)

/-- Every canonical kind is a fixed point of `normalizeEventType`. -/
theorem canon_fixed : ∀ c ∈ canonKinds, normalizeEventType c = c := by decide

/-- C10: `normalizeEventType` is idempotent — normalizing an
already-normalized kind never changes it, whether the first pass produced a
canonical kind or fell through to the lowercased input. -/
theorem normalizeIdem (s : String) :
    normalizeEventType (normalizeEventType s) = normalizeEventType s := by
  by_cases hs : s = ""
  · subst hs
    rfl
  · have h1 : normalizeEventType s = normCore (jsLower s) := by
      unfold normalizeEventType
      rw [if_neg hs]
    rcases normCore_cases (jsLower s) with h | h
    · rw [h1, h]
      unfold normalizeEventType
      rw [if_neg (jsLower_ne_empty hs), jsLower_idem, h]
    · rw [h1]
      exact canon_fixed _ h

/-! ### C4 (amended) — merge idempotence for nullish-free incoming records -/

/-- Two orders with equal fields are equal. -/
theorem Order.extEq {a b : Order} (h1 : a.id = b.id) (h2 : a.user_id = b.user_id)
    (h3 : a.user_name = b.user_name) (h4 : a.items = b.items) (h5 : a.total = b.total)
    (h6 : a.status = b.status) (h7 : a.driver_id = b.driver_id)
    (h8 : a.driver_name = b.driver_name) (h9 : a.payment_status = b.payment_status)
    (h10 : a.assigning = b.assigning) : a = b := by
  cases a
  cases b
  simp_all

/-- Re-merging stabilizes a keep-if-absent field (`user_id`, `user_name`,
`driver_id`, `driver_name`). -/
theorem spread_pick_stab (iF : Option (Option α)) (picked : Option α) :
    spreadF (pickPresent iF (spreadF picked iF)) iF = spreadF picked iF := by
  cases iF with
  | none => simp [spreadF, pickPresent, hasValue]
  | some v => simp [spreadF]

/-- Re-merging stabilizes the items field. -/
theorem spread_items_stab (iF : Option (Option (List String))) (L : List String) :
    spreadF (some (mergeItems (spreadF (some L) iF) iF)) iF = spreadF (some L) iF := by
  rcases iF with _ | os
  · simp [spreadF, mergeItems]
  · simp [spreadF]

/-- Re-merging stabilizes the total field. -/
theorem spread_total_stab (iF : Option (Option JSNum)) (n : JSNum) :
    spreadF (some (safeNumber (pCoal iF (spreadF (some n) iF))
      ((spreadF (some n) iF).getD (.fin 0)))) iF = spreadF (some n) iF := by
  rcases iF with _ | os
  · simp [spreadF, pCoal, safeNumber]
  · simp [spreadF]

/-- Re-merging stabilizes the status field. -/
theorem spread_status_stab (iF : Option (Option String)) (z : String) :
    spreadF (some (pickStatus (spreadF (some z) iF) iF.join)) iF = spreadF (some z) iF := by
  rcases iF with _ | os
  · simp [spreadF, pickStatus]
  · simp [spreadF]

/-- Re-merging stabilizes the payment_status field. -/
theorem spread_pay_stab (iF : Option (Option String)) (z : String) :
    spreadF (if hasValue iF then iF.join else some ((spreadF (some z) iF).getD "pending")) iF
      = spreadF (some z) iF := by
  rcases iF with _ | os
  · simp [spreadF, hasValue]
  · rcases os with _ | v
    · simp [spreadF]
    · simp [spreadF, hasValue]

/-- `computeAssigning` recomputed against the merged record agrees with the
original recomputation, provided no explicitly-nullish `status`,
`payment_status` or `driver_id` property rode in on the spread.  (With such
a property the spread nulls the stored field while the original pick still
saw the existing value — the C4 counterexample.) -/
theorem computeAssigning_stab (cur : Option String) (ex : Option Order) (inc : POrder)
    (hs : inc.status ≠ some none) (hp : inc.payment_status ≠ some none)
    (hd : inc.driver_id ≠ some none) :
    computeAssigning (some (mergeOrder cur ex inc)) inc = computeAssigning ex inc := by
  have hdri : pCoal inc.driver_id ((some (mergeOrder cur ex inc)).bind (·.driver_id))
      = pCoal inc.driver_id (ex.bind (·.driver_id)) := by
    rcases hD : inc.driver_id with _ | od
    · cases ex with
      | none => simp [pCoal, mergeOrder, spreadF, pickPresent, hasValue, hD]
      | some e => simp [pCoal, mergeOrder, spreadF, pickPresent, hasValue, hD]
    · rcases od with _ | v
      · exact absurd hD hd
      · simp [pCoal, hD]
  have hstat : pCoal inc.status ((some (mergeOrder cur ex inc)).bind (·.status))
        = pCoal inc.status (ex.bind (·.status)) ∨
      (pCoal inc.status ((some (mergeOrder cur ex inc)).bind (·.status)) = some "pending" ∧
        pCoal inc.status (ex.bind (·.status)) = none) := by
    rcases hS : inc.status with _ | os
    · cases ex with
      | none => right; simp [pCoal, mergeOrder, spreadF, hS]
      | some e =>
        rcases he : e.status with _ | s0
        · right; simp [pCoal, mergeOrder, spreadF, pickStatus, hS, he]
        · left; simp [pCoal, mergeOrder, spreadF, pickStatus, hS, he]
    · rcases os with _ | v
      · exact absurd hS hs
      · left; simp [pCoal, hS]
  have hpay : pCoal inc.payment_status ((some (mergeOrder cur ex inc)).bind (·.payment_status))
        = pCoal inc.payment_status (ex.bind (·.payment_status)) ∨
      (pCoal inc.payment_status
          ((some (mergeOrder cur ex inc)).bind (·.payment_status)) = some "pending" ∧
        pCoal inc.payment_status (ex.bind (·.payment_status)) = none) := by
    rcases hP : inc.payment_status with _ | os
    · cases ex with
      | none => right; simp [pCoal, mergeOrder, spreadF, hP]
      | some e =>
        rcases he : e.payment_status with _ | s0
        · right; simp [pCoal, mergeOrder, spreadF, hasValue, hP, he]
        · left; simp [pCoal, mergeOrder, spreadF, hasValue, hP, he]
    · rcases os with _ | v
      · exact absurd hP hp
      · left; simp [pCoal, hP]
  unfold computeAssigning
  rw [hdri]
  cases htr : jsTruthyStr (pCoal inc.driver_id (ex.bind (·.driver_id)))
  · rcases hstat with h | ⟨h1, h2⟩ <;> rcases hpay with g | ⟨g1, g2⟩ <;>
      simp_all [show ("pending" : String) ≠ "paid" by decide]
  · simp [htr]

/-- Re-merging the same incoming record over its own merge result
reproduces that result, as long as `status`, `payment_status` and
`driver_id` carry no explicitly-nullish property. -/
theorem mergeOrder_restab (cur : Option String) (ex : Option Order) (inc : POrder)
    (hs : inc.status ≠ some none) (hp : inc.payment_status ≠ some none)
    (hd : inc.driver_id ≠ some none) :
    mergeOrder cur (some (mergeOrder cur ex inc)) inc = mergeOrder cur ex inc := by
  obtain ⟨pu, hpu⟩ : ∃ pk, (mergeOrder cur ex inc).user_id = spreadF pk inc.user_id := by
    cases ex <;> exact ⟨_, rfl⟩
  obtain ⟨pn, hpn⟩ : ∃ pk, (mergeOrder cur ex inc).user_name = spreadF pk inc.user_name := by
    cases ex <;> exact ⟨_, rfl⟩
  obtain ⟨pd, hpd⟩ : ∃ pk, (mergeOrder cur ex inc).driver_id = spreadF pk inc.driver_id := by
    cases ex <;> exact ⟨_, rfl⟩
  obtain ⟨pm, hpm⟩ : ∃ pk,
      (mergeOrder cur ex inc).driver_name = spreadF pk inc.driver_name := by
    cases ex <;> exact ⟨_, rfl⟩
  obtain ⟨L, hL⟩ : ∃ L, (mergeOrder cur ex inc).items = spreadF (some L) inc.items := by
    cases ex <;> exact ⟨_, rfl⟩
  obtain ⟨n, hn⟩ : ∃ n, (mergeOrder cur ex inc).total = spreadF (some n) inc.total := by
    cases ex <;> exact ⟨_, rfl⟩
  obtain ⟨z, hz⟩ : ∃ z, (mergeOrder cur ex inc).status = spreadF (some z) inc.status := by
    cases ex <;> exact ⟨_, rfl⟩
  obtain ⟨y, hy⟩ : ∃ y,
      (mergeOrder cur ex inc).payment_status = spreadF (some y) inc.payment_status := by
    cases ex with
    | none => exact ⟨_, rfl⟩
    | some e =>
      rcases hP : inc.payment_status with _ | os
      · exact ⟨e.payment_status.getD "pending", by
          simp [mergeOrder, spreadF, hasValue, hP]⟩
      · exact ⟨"pending", by simp [mergeOrder, spreadF, hP]⟩
  have hasg : (mergeOrder cur ex inc).assigning
      = spreadF (some (computeAssigning ex inc)) inc.assigning := by
    cases ex <;> rfl
  refine Order.extEq ?_ ?_ ?_ ?_ ?_ ?_ ?_ ?_ ?_ ?_
  · exact (mergeOrder_id cur (some (mergeOrder cur ex inc)) inc).trans
      (mergeOrder_id cur ex inc).symm
  · show spreadF (pickPresent inc.user_id (mergeOrder cur ex inc).user_id) inc.user_id
      = (mergeOrder cur ex inc).user_id
    rw [hpu]
    exact spread_pick_stab _ _
  · show spreadF (pickPresent inc.user_name (mergeOrder cur ex inc).user_name) inc.user_name
      = (mergeOrder cur ex inc).user_name
    rw [hpn]
    exact spread_pick_stab _ _
  · show spreadF (some (mergeItems (mergeOrder cur ex inc).items inc.items)) inc.items
      = (mergeOrder cur ex inc).items
    rw [hL]
    exact spread_items_stab _ _
  · show spreadF (some (safeNumber (pCoal inc.total (mergeOrder cur ex inc).total)
      (((mergeOrder cur ex inc).total).getD (.fin 0)))) inc.total
        = (mergeOrder cur ex inc).total
    rw [hn]
    exact spread_total_stab _ _
  · show spreadF (some (pickStatus (mergeOrder cur ex inc).status inc.status.join)) inc.status
      = (mergeOrder cur ex inc).status
    rw [hz]
    exact spread_status_stab _ _
  · show spreadF (pickPresent inc.driver_id (mergeOrder cur ex inc).driver_id) inc.driver_id
      = (mergeOrder cur ex inc).driver_id
    rw [hpd]
    exact spread_pick_stab _ _
  · show spreadF (pickPresent inc.driver_name (mergeOrder cur ex inc).driver_name)
      inc.driver_name = (mergeOrder cur ex inc).driver_name
    rw [hpm]
    exact spread_pick_stab _ _
  · show spreadF (if hasValue inc.payment_status then inc.payment_status.join
      else some (((mergeOrder cur ex inc).payment_status).getD "pending"))
        inc.payment_status = (mergeOrder cur ex inc).payment_status
    rw [hy]
    exact spread_pay_stab _ _
  · show spreadF (some (computeAssigning (some (mergeOrder cur ex inc)) inc)) inc.assigning
      = (mergeOrder cur ex inc).assigning
    rw [hasg, computeAssigning_stab cur ex inc hs hp hd]

/-- Upserting a record that the list already holds at its id (and at every
duplicate slot of that id) leaves the list unchanged. -/
theorem upsertList_restab {prev : List Order} {merged : Order}
    (hmem : lastFind (upsertList prev merged) merged.id = some merged) :
    upsertList (upsertList prev merged) merged = upsertList prev merged := by
  have hmm : merged ∈ upsertList prev merged :=
    List.mem_reverse.mp (List.mem_of_find?_eq_some hmem)
  have hnotnew : ¬ (upsertList prev merged).all (fun p => p.id ≠ merged.id) = true := by
    intro hall
    have h2 := List.all_eq_true.mp hall merged hmm
    simp at h2
  have hfix : ∀ p ∈ upsertList prev merged,
      (if p.id = merged.id then merged
        else (lastFind (upsertList prev merged) p.id).getD p) = p := by
    intro p hp
    have h1 := @lastFind_upsertList_of_mem prev merged p hp
    by_cases hpm : p.id = merged.id
    · rw [if_pos hpm]
      rw [hpm, hmem] at h1
      exact Option.some.inj h1
    · rw [if_neg hpm, h1]
      rfl
  rw [show upsertList (upsertList prev merged) merged =
      (if (upsertList prev merged).all (fun p => p.id ≠ merged.id) then
        merged :: (upsertList prev merged).map (fun p => if p.id = merged.id then merged
          else (lastFind (upsertList prev merged) p.id).getD p)
       else (upsertList prev merged).map (fun p => if p.id = merged.id then merged
          else (lastFind (upsertList prev merged) p.id).getD p)) from rfl,
    if_neg hnotnew]
  exact (List.map_congr_left hfix).trans (List.map_id _)

/-- C4 (amended): merging the same incoming record twice equals merging it
once — same records and same list order — provided the record's `status`,
`payment_status` and `driver_id` are each either absent or a real value
(never a property explicitly set to null/undefined).  The socket handler's
`unified` records violate the proviso (`driver_id: ... ?? null`), which is
what the counterexample exploits. -/
theorem upsertIdem (cur : Option String) (prev : List Order) (e : POrder)
    (hs : e.status ≠ some none) (hp : e.payment_status ≠ some none)
    (hd : e.driver_id ≠ some none) :
    upsertOrderPure cur (upsertOrderPure cur prev e) e = upsertOrderPure cur prev e := by
  unfold upsertOrderPure
  have hm1id : (mergeOrder cur (lastFind prev e.id) e).id = e.id :=
    mergeOrder_id cur (lastFind prev e.id) e
  have hD : lastFind (upsertList prev (mergeOrder cur (lastFind prev e.id) e)) e.id
      = some (mergeOrder cur (lastFind prev e.id) e) := by
    have h2 := @lastFind_upsertList_self prev
      (mergeOrder cur (lastFind prev e.id) e)
    rwa [hm1id] at h2
  rw [hD, mergeOrder_restab cur (lastFind prev e.id) e hs hp hd]
  exact upsertList_restab (by rw [hm1id]; exact hD)

/-- Store and incoming record for the C4 witness. -/
def w4prev : List Order :=
  [{ id := "O1", user_id := some "u1", items := some ["Burger"],
     total := some (.fin 8), status := some "pending" }]

/-- An `order.updated`-shaped record with real values only. -/
def w4inc : POrder :=
  { id := "O1", status := some (some "paid"), total := some (some (.fin 8)),
    items := some (some ["Burger"]), payment_status := some (some "paid") }

/-- Witness for C4 (amended) at a concrete input. -/
theorem upsertIdem_witness :
    w4inc.status ≠ some none ∧ w4inc.payment_status ≠ some none ∧
    w4inc.driver_id ≠ some none ∧
    upsertOrderPure none (upsertOrderPure none w4prev w4inc) w4inc
      = upsertOrderPure none w4prev w4inc :=
  ⟨by decide, by decide, by decide,
    upsertIdem none w4prev w4inc (by decide) (by decide) (by decide)⟩
